import Mathlib

/-!
Formal model of the MONAI models-ensemble tutorial notebook
(`examples/notebooks/models_ensemble.ipynb`): the ensemble aggregation
transforms (weighted mean and majority vote), the 5-fold file split, and the
post-transform pipelines built in the notebook.

The notebook itself only calls `MeanEnsembled` / `VoteEnsembled` from the MONAI
library; the library implementation is not part of the sources here, so the
aggregator is modelled from the specification (§4.1, §4.2, §6, §7) and the
notebook's own description of the transforms.  Tensor values are modelled as
rationals; a tensor is its shape together with its row-major flat data.
-/

/-- A prediction tensor: a shape `[batch, channels, *spatial]` together with its
row-major flat data.  Values are modelled as rationals (exact arithmetic). -/
structure Tensor where
  shape : List Nat
  data : List ℚ
deriving DecidableEq

instance : Inhabited Tensor := ⟨⟨[], []⟩⟩

/-- Modelled from the spec: the error taxonomy (§7) of the ensemble aggregator,
whose implementation (MONAI's `MeanEnsemble` / `VoteEnsemble`) is not among the
sources. -/
inductive EnsembleError where
  | ShapeMismatch
  | InvalidWeightShape
  | DegenerateWeights
  | EmptyCollection
deriving DecidableEq

/-- Do all members of the collection share the first member's shape? -/
def sameShape : List Tensor → Bool
  | [] => true
  | p :: rest => rest.all (fun q => decide (q.shape = p.shape))

/-- Batch index of the flat element `j` under shape `S = [B, C, *spatial]`. -/
def batchOf (S : List Nat) (j : Nat) : Nat := j / (S.drop 1).prod

/-- Channel index of the flat element `j` under shape `S = [B, C, *spatial]`. -/
def chanOf (S : List Nat) (j : Nat) : Nat := (j / (S.drop 2).prod) % S.getD 1 1

/-- Modelled from the spec: rank-dependent weight broadcasting (§4.1).  The
weight applied to ensemble member `i` at flat element `j` of a member of shape
`S`: a rank-1 weight scales the whole member, rank-2 weights vary with the
batch index, rank-3 weights vary with batch and channel. -/
def weightAt (w : Tensor) (S : List Nat) (i j : Nat) : ℚ :=
  match w.shape with
  | [_] => w.data.getD i 0
  | [_, b] => w.data.getD (i * b + batchOf S j) 0
  | [_, b, c] => w.data.getD (i * (b * c) + batchOf S j * c + chanOf S j) 0
  | _ => 0

/-- Modelled from the spec: the three accepted weight forms (§4.1) — rank 1 of
length `N`, rank 2 of shape `[N, B]`, rank 3 of shape `[N, B, C]`; anything
else is rejected. -/
def validWeightShape (wshape : List Nat) (N : Nat) (S : List Nat) : Bool :=
  match wshape with
  | [n] => decide (n = N)
  | [n, b] => decide (n = N ∧ b = S.getD 0 1)
  | [n, b, c] => decide (n = N ∧ b = S.getD 0 1 ∧ c = S.getD 1 1)
  | _ => false

/-- Modelled from the spec: does some output element receive only zero weights
(§4.1 `DegenerateWeights`)? -/
def hasDegenerate (w : Tensor) (S : List Nat) (N M : Nat) : Bool :=
  (List.range M).any (fun j => (List.range N).all (fun i => decide (weightAt w S i j = 0)))

/-- Unweighted elementwise mean over the ensemble axis at flat position `j`. -/
def elemMean (preds : List Tensor) (j : Nat) : ℚ :=
  (preds.map (fun t => t.data.getD j 0)).sum / preds.length

/-- Weighted elementwise average over the ensemble axis at flat position `j`:
`sum(w_i * x_i) / sum(w_i)` with broadcast weights. -/
def elemWMean (preds : List Tensor) (w : Tensor) (S : List Nat) (j : Nat) : ℚ :=
  (List.zipWith (fun a b => a * b)
      ((List.range preds.length).map (fun i => weightAt w S i j))
      (preds.map (fun t => t.data.getD j 0))).sum /
    ((List.range preds.length).map (fun i => weightAt w S i j)).sum

/-- Modelled from the spec: `mean_ensemble` (§4.1, §6) — MONAI's
`MeanEnsemble`, absent from the sources.  Validates shapes and weights, then
returns the (weighted) elementwise mean over the ensemble axis; the output has
the common member shape. -/
def mean_ensemble (preds : List Tensor) (weights : Option Tensor) :
    Except EnsembleError Tensor :=
  match preds with
  | [] => .error .EmptyCollection
  | p :: rest =>
    if sameShape (p :: rest) then
      match weights with
      | none =>
          .ok ⟨p.shape, (List.range p.shape.prod).map (fun j => elemMean (p :: rest) j)⟩
      | some w =>
          if validWeightShape w.shape (p :: rest).length p.shape then
            if hasDegenerate w p.shape (p :: rest).length p.shape.prod then
              .error .DegenerateWeights
            else
              .ok ⟨p.shape,
                (List.range p.shape.prod).map (fun j => elemWMean (p :: rest) w p.shape j)⟩
          else .error .InvalidWeightShape
    else .error .ShapeMismatch

/-- Number of occurrences of `u` in `vs`. -/
def countVal (vs : List ℚ) (u : ℚ) : Nat := (vs.filter (fun x => decide (x = u))).length

/-- Does candidate `v` beat candidate `best` in the vote over `vs`: either it
occurs strictly more often, or equally often and is the smaller value. -/
def voteBeats (vs : List ℚ) (v best : ℚ) : Bool :=
  decide (countVal vs best < countVal vs v) ||
    (decide (countVal vs v = countVal vs best) && decide (v < best))

/-- Modelled from the spec: single-channel vote (§4.2) — the most frequent
value among the members' values `vs`, the smallest value winning ties. -/
def voteMode (vs : List ℚ) : ℚ :=
  match vs with
  | [] => 0
  | v0 :: _ => vs.foldl (fun best v => if voteBeats vs v best then v else best) v0

/-- Number of nonzero votes. -/
def countNonzero (vs : List ℚ) : Nat := (vs.filter (fun x => decide (x ≠ 0))).length

/-- Modelled from the spec: `vote_ensemble` (§4.2, §6) — MONAI's
`VoteEnsemble`, absent from the sources.  Single-channel input votes the most
common value (smallest wins ties); multi-channel one-hot input turns a channel
on exactly when strictly more than half the members voted nonzero. -/
def vote_ensemble (preds : List Tensor) : Except EnsembleError Tensor :=
  match preds with
  | [] => .error .EmptyCollection
  | p :: rest =>
    if sameShape (p :: rest) then
      if p.shape.getD 1 1 ≤ 1 then
        .ok ⟨p.shape, (List.range p.shape.prod).map
          (fun j => voteMode ((p :: rest).map (fun t => t.data.getD j 0)))⟩
      else
        .ok ⟨p.shape, (List.range p.shape.prod).map
          (fun j => if (p :: rest).length <
              2 * countNonzero ((p :: rest).map (fun t => t.data.getD j 0)) then 1 else 0)⟩
    else .error .ShapeMismatch

instance {ε α : Type} [DecidableEq ε] [DecidableEq α] : DecidableEq (Except ε α) := fun a b =>
  match a, b with
  | .ok x, .ok y =>
      if h : x = y then .isTrue (by rw [h]) else .isFalse (by simp [h])
  | .error x, .error y =>
      if h : x = y then .isTrue (by rw [h]) else .isFalse (by simp [h])
  | .ok _, .error _ => .isFalse (by simp)
  | .error _, .ok _ => .isFalse (by simp)

/-- The five constant prediction tensors of the notebook scenario: shape
`[1,1,4,4,4]`, constant value `v`. -/
def constTensor (v : ℚ) : Tensor := ⟨[1, 1, 4, 4, 4], List.replicate 64 v⟩

/-- The notebook scenario's five prediction tensors, constant values
`0.9, 0.8, 0.7, 0.6, 0.5`. -/
def exPreds : List Tensor :=
  [constTensor (9/10), constTensor (4/5), constTensor (7/10),
   constTensor (3/5), constTensor (1/2)]

/-- The notebook's validation-metric weights `[0.95, 0.94, 0.95, 0.94, 0.90]`. -/
def exW : Tensor := ⟨[5], [19/20, 47/50, 19/20, 47/50, 9/10]⟩

/-! ### The notebook's 5-fold split of the sorted (image, seg) file lists -/

/-- Python slice `xs[a:b]`. -/
def pySlice {α : Type} (xs : List α) (a b : Nat) : List α := (xs.take b).drop a

/-- The notebook's `train_files[i]`: the `(image, label)` pairs of
`zip(images[:10*i] + images[10*(i+1):50], segs[:10*i] + segs[10*(i+1):50])`. -/
def train_files {α β : Type} (images : List α) (segs : List β) (i : Nat) : List (α × β) :=
  List.zip (pySlice images 0 (10 * i) ++ pySlice images (10 * (i + 1)) 50)
    (pySlice segs 0 (10 * i) ++ pySlice segs (10 * (i + 1)) 50)

/-- The notebook's `val_files[i]`: the pairs of
`zip(images[10*i:10*(i+1)], segs[10*i:10*(i+1)])`. -/
def val_files {α β : Type} (images : List α) (segs : List β) (i : Nat) : List (α × β) :=
  List.zip (pySlice images (10 * i) (10 * (i + 1))) (pySlice segs (10 * i) (10 * (i + 1)))

/-- The notebook's `test_files`: the pairs of `zip(images[50:60], segs[50:60])`. -/
def test_files {α β : Type} (images : List α) (segs : List β) : List (α × β) :=
  List.zip (pySlice images 50 60) (pySlice segs 50 60)

/-! ### The notebook's post-transform pipelines -/

/-- A keyed data dictionary, as consumed by the `...d` dictionary transforms. -/
def Dict : Type := String → Tensor

/-- Store tensor `t` under key `k`. -/
def updateKey (d : Dict) (k : String) (t : Tensor) : Dict :=
  fun x => if x = k then t else d x

/-- Modelled from the spec: MONAI's `Activationsd(keys, sigmoid=True)` applies
an elementwise activation to the listed keys; the activation function itself
is kept abstract as a parameter `act`. -/
def Activationsd (act : ℚ → ℚ) (keys : List String) (d : Dict) : Dict :=
  fun k => if k ∈ keys then ⟨(d k).shape, (d k).data.map act⟩ else d k

/-- Modelled from the spec: MONAI's `AsDiscreted(keys, threshold_values=True)`
thresholds the listed keys elementwise at `0.5` to the discrete values
`0` and `1`. -/
def AsDiscreted (keys : List String) (d : Dict) : Dict :=
  fun k =>
    if k ∈ keys then
      ⟨(d k).shape, (d k).data.map (fun x => if mkRat 1 2 ≤ x then 1 else 0)⟩
    else d k

/-- Modelled from the spec: MONAI's `MeanEnsembled(keys, output_key, weights)`
dictionary transform — aggregates the tensors at `keys` with `mean_ensemble`
and stores the result under `outKey` (on a contract error the real transform
raises; the pass-through branch is never reached in the claims below). -/
def MeanEnsembled (keys : List String) (outKey : String) (w : Option Tensor) (d : Dict) : Dict :=
  match mean_ensemble (keys.map d) w with
  | .ok t => updateKey d outKey t
  | .error _ => d

/-- Modelled from the spec: MONAI's `VoteEnsembled(keys, output_key)`
dictionary transform — aggregates the tensors at `keys` with `vote_ensemble`
and stores the result under `outKey`. -/
def VoteEnsembled (keys : List String) (outKey : String) (d : Dict) : Dict :=
  match vote_ensemble (keys.map d) with
  | .ok t => updateKey d outKey t
  | .error _ => d

/-- MONAI's `Compose`: apply the transforms in list order. -/
def Compose (ts : List (Dict → Dict)) (d : Dict) : Dict := ts.foldl (fun s f => f s) d

/-- The notebook's five prediction keys. -/
def pred_keys : List String := ["pred0", "pred1", "pred2", "pred3", "pred4"]

/-- The notebook's `mean_post_transforms`: `MeanEnsembled` over the five
prediction keys with the validation-metric weights, then `Activationsd` and
`AsDiscreted` on the aggregated key only. -/
def mean_post_transforms (act : ℚ → ℚ) : Dict → Dict :=
  Compose
    [MeanEnsembled pred_keys "pred" (some exW),
     Activationsd act ["pred"],
     AsDiscreted ["pred"]]

/-- The notebook's `vote_post_transforms`: `Activationsd` and `AsDiscreted` on
all five prediction keys first, then `VoteEnsembled`. -/
def vote_post_transforms (act : ℚ → ℚ) : Dict → Dict :=
  Compose
    [Activationsd act pred_keys,
     AsDiscreted pred_keys,
     VoteEnsembled pred_keys "pred"]

/-- The dictionary state of the vote pipeline at the moment `VoteEnsembled`
runs: the prefix of `vote_post_transforms` before the vote reducer. -/
def voteStageInput (act : ℚ → ℚ) (d : Dict) : Dict :=
  Compose [Activationsd act pred_keys, AsDiscreted pred_keys] d

/-- A tensor is discrete when every element is `0` or `1`. -/
def isDiscrete (t : Tensor) : Prop := ∀ v ∈ t.data, v = 0 ∨ v = 1

/-- Correctness of fold `i` of the notebook's 5-fold split, on the sorted
index lists `0..59` (a pair at sorted index `k` is `(k, k)`): the validation
fold is exactly the pairs at indices `10*i .. 10*(i+1)-1`, the training data
is exactly the remaining pairs among the first 50, the two are disjoint,
together they cover the first 50 pairs, and the test pairs (indices `50..59`)
appear in neither. -/
def foldSplitOK (i : Nat) : Prop :=
  val_files (List.range 60) (List.range 60) i
      = (pySlice (List.range 60) (10 * i) (10 * (i + 1))).map (fun k => (k, k)) ∧
  train_files (List.range 60) (List.range 60) i
      = ((pySlice (List.range 60) 0 (10 * i)
            ++ pySlice (List.range 60) (10 * (i + 1)) 50).map (fun k => (k, k))) ∧
  (∀ x ∈ train_files (List.range 60) (List.range 60) i,
      x ∉ val_files (List.range 60) (List.range 60) i) ∧
  (∀ x ∈ ((List.range 60).take 50).map (fun k => (k, k)),
      x ∈ train_files (List.range 60) (List.range 60) i
        ∨ x ∈ val_files (List.range 60) (List.range 60) i) ∧
  (∀ x ∈ test_files (List.range 60) (List.range 60),
      x ∉ train_files (List.range 60) (List.range 60) i
        ∧ x ∉ val_files (List.range 60) (List.range 60) i)

/-! ### Bridging lemmas between list computations and indexed sums -/

theorem sum_map_range (f : Nat → ℚ) (n : Nat) :
    ((List.range n).map f).sum = ∑ i ∈ Finset.range n, f i := by
  induction n with
  | zero => simp
  | succ n ih =>
      rw [List.range_succ, List.map_append, List.sum_append, Finset.sum_range_succ, ih]
      simp

theorem sum_map_eq_sum_getD (l : List Tensor) (g : Tensor → ℚ) :
    (l.map g).sum = ∑ i ∈ Finset.range l.length, g (l.getD i default) := by
  induction l with
  | nil => simp
  | cons a t ih =>
      rw [List.map_cons, List.sum_cons, List.length_cons, Finset.sum_range_succ', ih]
      simp [add_comm]

theorem sum_zipWith_range (l : List Tensor) (f : Nat → ℚ) (g : Tensor → ℚ) :
    (List.zipWith (fun a b => a * b) ((List.range l.length).map f) (l.map g)).sum
      = ∑ i ∈ Finset.range l.length, f i * g (l.getD i default) := by
  induction l generalizing f with
  | nil => simp
  | cons a t ih =>
      rw [List.length_cons, List.range_succ_eq_map, List.map_cons, List.map_map, List.map_cons,
        List.zipWith_cons_cons, List.sum_cons, Finset.sum_range_succ']
      have hm : (List.range t.length).map (f ∘ Nat.succ)
          = (List.range t.length).map (fun i => f (i + 1)) := by
        simp [Function.comp]
      rw [hm, ih (fun i => f (i + 1))]
      simp [add_comm]

theorem elemWMean_eq (preds : List Tensor) (w : Tensor) (S : List Nat) (j : Nat) :
    elemWMean preds w S j
      = (∑ i ∈ Finset.range preds.length,
            weightAt w S i j * (preds.getD i default).data.getD j 0)
        / ∑ i ∈ Finset.range preds.length, weightAt w S i j := by
  unfold elemWMean
  rw [sum_zipWith_range, sum_map_range]

theorem elemMean_eq (preds : List Tensor) (j : Nat) :
    elemMean preds j
      = (∑ i ∈ Finset.range preds.length, (preds.getD i default).data.getD j 0)
        / preds.length := by
  unfold elemMean
  rw [sum_map_eq_sum_getD]

theorem getD_map_range (f : Nat → ℚ) (M j : Nat) (hj : j < M) :
    ((List.range M).map f).getD j 0 = f j := by
  rw [List.getD_eq_getElem?_getD]
  simp [List.getElem?_map, List.getElem?_range hj]

/-! ### C2: unweighted mean -/

/-- C2: with weights absent, `mean_ensemble` returns the elementwise
arithmetic mean over the ensemble axis, and the output tensor has exactly the
common member shape `S` (no added ensemble axis). -/
theorem mean_ensemble_unweighted (preds : List Tensor) (hne : preds ≠ [])
    (hsh : sameShape preds = true) :
    ∃ t, mean_ensemble preds none = .ok t ∧
      t.shape = (preds.headD default).shape ∧
      t.data.length = t.shape.prod ∧
      ∀ j < t.shape.prod,
        t.data.getD j 0
          = (∑ i ∈ Finset.range preds.length, (preds.getD i default).data.getD j 0)
            / preds.length := by
  match preds, hne with
  | p :: rest, _ =>
    refine ⟨⟨p.shape, (List.range p.shape.prod).map (fun j => elemMean (p :: rest) j)⟩,
      ?_, rfl, ?_, ?_⟩
    · simp [mean_ensemble, hsh]
    · simp
    · intro j hj
      rw [getD_map_range _ _ _ hj, elemMean_eq]

/-- Witness for C2 at a concrete two-member collection. -/
theorem mean_ensemble_unweighted_witness :
    (([Tensor.mk [2] [1, 3], Tensor.mk [2] [3, 5]] : List Tensor) ≠ []) ∧
    sameShape [Tensor.mk [2] [1, 3], Tensor.mk [2] [3, 5]] = true ∧
    (∃ t, mean_ensemble [Tensor.mk [2] [1, 3], Tensor.mk [2] [3, 5]] none = .ok t ∧
      t.shape = (([Tensor.mk [2] [1, 3], Tensor.mk [2] [3, 5]] : List Tensor).headD default).shape ∧
      t.data.length = t.shape.prod ∧
      ∀ j < t.shape.prod,
        t.data.getD j 0
          = (∑ i ∈ Finset.range ([Tensor.mk [2] [1, 3], Tensor.mk [2] [3, 5]] : List Tensor).length,
              (([Tensor.mk [2] [1, 3], Tensor.mk [2] [3, 5]] : List Tensor).getD i default).data.getD j 0)
            / ([Tensor.mk [2] [1, 3], Tensor.mk [2] [3, 5]] : List Tensor).length) :=
  ⟨by decide, by decide, mean_ensemble_unweighted _ (by decide) (by decide)⟩

/-! ### C1: weighted mean -/

/-- C1: for every non-empty same-shape collection and every accepted,
non-degenerate weight array, `mean_ensemble` returns the elementwise weighted
average `sum(w_i * x_i) / sum(w_i)` over the ensemble axis (with the broadcast
weight of member `i` at each element). -/
theorem mean_ensemble_weighted_avg (preds : List Tensor) (w : Tensor)
    (hne : preds ≠ []) (hsh : sameShape preds = true)
    (hw : validWeightShape w.shape preds.length (preds.headD default).shape = true)
    (hdeg : hasDegenerate w (preds.headD default).shape preds.length
        (preds.headD default).shape.prod = false) :
    ∃ t, mean_ensemble preds (some w) = .ok t ∧
      t.shape = (preds.headD default).shape ∧
      t.data.length = t.shape.prod ∧
      ∀ j < t.shape.prod,
        t.data.getD j 0
          = (∑ i ∈ Finset.range preds.length,
              weightAt w (preds.headD default).shape i j
                * (preds.getD i default).data.getD j 0)
            / ∑ i ∈ Finset.range preds.length, weightAt w (preds.headD default).shape i j := by
  match preds, hne with
  | p :: rest, _ =>
    simp only [List.headD_cons, List.length_cons] at hw hdeg
    refine ⟨⟨p.shape, (List.range p.shape.prod).map (fun j => elemWMean (p :: rest) w p.shape j)⟩,
      ?_, rfl, ?_, ?_⟩
    · simp [mean_ensemble, hsh, hw, hdeg]
    · simp
    · intro j hj
      rw [getD_map_range _ _ _ hj, elemWMean_eq]
      simp [List.headD_cons]

set_option maxRecDepth 20000 in
set_option maxHeartbeats 4000000 in
/-- Witness for C1: the notebook's end-to-end scenario.  The output is the
constant `sum(w_i * v_i) / sum(w_i) = 1643/2340`, exactly (the model computes
in exact rational arithmetic, so the floating-point tolerance is met). -/
theorem mean_ensemble_weighted_avg_witness :
    (exPreds ≠ []) ∧ sameShape exPreds = true ∧
    validWeightShape exW.shape exPreds.length (exPreds.headD default).shape = true ∧
    hasDegenerate exW (exPreds.headD default).shape exPreds.length
        (exPreds.headD default).shape.prod = false ∧
    (∃ t, mean_ensemble exPreds (some exW) = .ok t ∧
      t.shape = (exPreds.headD default).shape ∧
      t.data.length = t.shape.prod ∧
      ∀ j < t.shape.prod,
        t.data.getD j 0
          = (∑ i ∈ Finset.range exPreds.length,
              weightAt exW (exPreds.headD default).shape i j
                * (exPreds.getD i default).data.getD j 0)
            / ∑ i ∈ Finset.range exPreds.length,
                weightAt exW (exPreds.headD default).shape i j) ∧
    mean_ensemble exPreds (some exW)
      = .ok ⟨[1, 1, 4, 4, 4], List.replicate 64 (1643/2340)⟩ :=
  ⟨by decide, by decide, by decide, by with_unfolding_all decide,
    mean_ensemble_weighted_avg exPreds exW (by decide) (by decide) (by decide)
      (by with_unfolding_all decide),
    by with_unfolding_all rfl⟩

/-! ### C5, C6, C7: error handling -/

theorem sameShape_iff (p : Tensor) (rest : List Tensor) :
    sameShape (p :: rest) = true ↔ ∀ q ∈ p :: rest, q.shape = p.shape := by
  simp [sameShape, List.all_eq_true]

/-- C5: whenever two members of the input collection have different shapes,
both `mean_ensemble` and `vote_ensemble` fail with `ShapeMismatch` before any
reduction and produce no output tensor. -/
theorem ensemble_shape_mismatch (preds : List Tensor) (weights : Option Tensor)
    (a b : Tensor) (ha : a ∈ preds) (hb : b ∈ preds) (hab : a.shape ≠ b.shape) :
    mean_ensemble preds weights = .error .ShapeMismatch ∧
    vote_ensemble preds = .error .ShapeMismatch := by
  cases preds with
  | nil => cases ha
  | cons p rest =>
      have hss : sameShape (p :: rest) = false := by
        cases h : sameShape (p :: rest) with
        | false => rfl
        | true =>
            rw [sameShape_iff] at h
            exact absurd ((h a ha).trans (h b hb).symm) hab
      constructor
      · simp [mean_ensemble, hss]
      · simp [vote_ensemble, hss]

/-- Witness for C5: two members of shapes `[2]` and `[3]`. -/
theorem ensemble_shape_mismatch_witness :
    ((Tensor.mk [2] [1, 1]) ∈ [Tensor.mk [2] [1, 1], Tensor.mk [3] [1, 1, 1]]) ∧
    ((Tensor.mk [3] [1, 1, 1]) ∈ [Tensor.mk [2] [1, 1], Tensor.mk [3] [1, 1, 1]]) ∧
    (Tensor.mk [2] [1, 1]).shape ≠ (Tensor.mk [3] [1, 1, 1]).shape ∧
    (mean_ensemble [Tensor.mk [2] [1, 1], Tensor.mk [3] [1, 1, 1]] none
        = .error .ShapeMismatch ∧
      vote_ensemble [Tensor.mk [2] [1, 1], Tensor.mk [3] [1, 1, 1]]
        = .error .ShapeMismatch) :=
  ⟨by decide, by decide, by decide,
    ensemble_shape_mismatch [Tensor.mk [2] [1, 1], Tensor.mk [3] [1, 1, 1]] none
      (Tensor.mk [2] [1, 1]) (Tensor.mk [3] [1, 1, 1])
      (by decide) (by decide) (by decide)⟩

theorem validWeightShape_rank (ws : List Nat) (N : Nat) (S : List Nat)
    (h : validWeightShape ws N S = true) :
    ws.length = 1 ∨ ws.length = 2 ∨ ws.length = 3 := by
  match ws with
  | [] => simp [validWeightShape] at h
  | [n] => left; rfl
  | [n, b] => right; left; rfl
  | [n, b, c] => right; right; rfl
  | n :: b :: c :: d :: t => simp [validWeightShape] at h

/-- C6: a weight array whose rank is not 1, 2 or 3 is rejected with
`InvalidWeightShape` before any reduction; ranks 1, 2, 3 are the only
forms that `validWeightShape` can accept. -/
theorem mean_ensemble_invalid_weight (preds : List Tensor) (w : Tensor)
    (hne : preds ≠ []) (hsh : sameShape preds = true)
    (hr : ¬ (w.shape.length = 1 ∨ w.shape.length = 2 ∨ w.shape.length = 3)) :
    mean_ensemble preds (some w) = .error .InvalidWeightShape := by
  match preds, hne with
  | p :: rest, _ =>
    have hvw : validWeightShape w.shape (rest.length + 1) p.shape = false := by
      cases h : validWeightShape w.shape (rest.length + 1) p.shape with
      | false => rfl
      | true => exact absurd (validWeightShape_rank _ _ _ h) hr
    simp [mean_ensemble, hsh, hvw]

/-- Witness for C6: a rank-4 weight array of shape `[N, B, C, extra]`. -/
theorem mean_ensemble_invalid_weight_witness :
    (([Tensor.mk [1, 1, 2] [1, 2], Tensor.mk [1, 1, 2] [3, 4]] : List Tensor) ≠ []) ∧
    sameShape [Tensor.mk [1, 1, 2] [1, 2], Tensor.mk [1, 1, 2] [3, 4]] = true ∧
    (¬ ((Tensor.mk [2, 1, 1, 2] [1, 1, 1, 1]).shape.length = 1 ∨
        (Tensor.mk [2, 1, 1, 2] [1, 1, 1, 1]).shape.length = 2 ∨
        (Tensor.mk [2, 1, 1, 2] [1, 1, 1, 1]).shape.length = 3)) ∧
    mean_ensemble [Tensor.mk [1, 1, 2] [1, 2], Tensor.mk [1, 1, 2] [3, 4]]
        (some (Tensor.mk [2, 1, 1, 2] [1, 1, 1, 1])) = .error .InvalidWeightShape :=
  ⟨by decide, by decide, by decide,
    mean_ensemble_invalid_weight _ _ (by decide) (by decide) (by decide)⟩

/-- C7: if every weight contributing to some output element is zero, the
weighted `mean_ensemble` fails with `DegenerateWeights` instead of returning a
tensor (so no NaN-producing division is attempted). -/
theorem mean_ensemble_degenerate (preds : List Tensor) (w : Tensor)
    (hne : preds ≠ []) (hsh : sameShape preds = true)
    (hw : validWeightShape w.shape preds.length (preds.headD default).shape = true)
    (hdeg : ∃ j < (preds.headD default).shape.prod,
        ∀ i < preds.length, weightAt w (preds.headD default).shape i j = 0) :
    mean_ensemble preds (some w) = .error .DegenerateWeights := by
  match preds, hne with
  | p :: rest, _ =>
    simp only [List.headD_cons, List.length_cons] at hw hdeg
    have hd : hasDegenerate w p.shape (rest.length + 1) p.shape.prod = true := by
      obtain ⟨j, hj, hall⟩ := hdeg
      unfold hasDegenerate
      rw [List.any_eq_true]
      refine ⟨j, List.mem_range.mpr hj, ?_⟩
      rw [List.all_eq_true]
      intro i hi
      exact decide_eq_true (hall i (List.mem_range.mp hi))
    simp [mean_ensemble, hsh, hw, hd]

/-- Witness for C7: rank-2 weights `[[0, 1], [0, 1]]` are all zero on the
first batch element. -/
theorem mean_ensemble_degenerate_witness :
    (([Tensor.mk [2, 1] [1, 1], Tensor.mk [2, 1] [2, 2]] : List Tensor) ≠ []) ∧
    sameShape [Tensor.mk [2, 1] [1, 1], Tensor.mk [2, 1] [2, 2]] = true ∧
    validWeightShape (Tensor.mk [2, 2] [0, 1, 0, 1]).shape
      ([Tensor.mk [2, 1] [1, 1], Tensor.mk [2, 1] [2, 2]] : List Tensor).length
      (([Tensor.mk [2, 1] [1, 1], Tensor.mk [2, 1] [2, 2]] : List Tensor).headD default).shape
        = true ∧
    (∃ j < (([Tensor.mk [2, 1] [1, 1], Tensor.mk [2, 1] [2, 2]] :
          List Tensor).headD default).shape.prod,
        ∀ i < ([Tensor.mk [2, 1] [1, 1], Tensor.mk [2, 1] [2, 2]] : List Tensor).length,
          weightAt (Tensor.mk [2, 2] [0, 1, 0, 1])
            (([Tensor.mk [2, 1] [1, 1], Tensor.mk [2, 1] [2, 2]] :
              List Tensor).headD default).shape i j = 0) ∧
    mean_ensemble [Tensor.mk [2, 1] [1, 1], Tensor.mk [2, 1] [2, 2]]
        (some (Tensor.mk [2, 2] [0, 1, 0, 1])) = .error .DegenerateWeights :=
  ⟨by decide, by decide, by decide, by decide,
    mean_ensemble_degenerate _ _ (by decide) (by decide) (by decide) (by decide)⟩

/-! ### C4: multi-channel one-hot vote -/

theorem countNonzero_map (l : List Tensor) (j : Nat) :
    countNonzero (l.map (fun t => t.data.getD j 0))
      = (l.filter (fun q => decide (q.data.getD j 0 ≠ 0))).length := by
  unfold countNonzero
  rw [← List.countP_eq_length_filter, ← List.countP_eq_length_filter, List.countP_map]
  rfl

/-- C4: for a multi-channel (channel count > 1) collection of N members,
`vote_ensemble` sets an output element to 1 exactly when the number of members
with a nonzero value there strictly exceeds N/2; an exact N/2 split yields 0. -/
theorem vote_ensemble_multichannel (preds : List Tensor)
    (hne : preds ≠ []) (hsh : sameShape preds = true)
    (hc : 1 < (preds.headD default).shape.getD 1 1) :
    ∃ t, vote_ensemble preds = .ok t ∧
      t.shape = (preds.headD default).shape ∧
      t.data.length = t.shape.prod ∧
      ∀ j < t.shape.prod,
        t.data.getD j 0
          = if preds.length
              < 2 * (preds.filter (fun q => decide (q.data.getD j 0 ≠ 0))).length
            then 1 else 0 := by
  match preds, hne with
  | p :: rest, _ =>
    simp only [List.headD_cons] at hc
    refine ⟨⟨p.shape, (List.range p.shape.prod).map
        (fun j => if (p :: rest).length <
            2 * countNonzero ((p :: rest).map (fun t => t.data.getD j 0)) then 1 else 0)⟩,
      ?_, rfl, ?_, ?_⟩
    · simp only [vote_ensemble]
      rw [if_pos hsh, if_neg (Nat.not_le.mpr hc)]
    · simp
    · intro j hj
      rw [getD_map_range _ _ _ hj, countNonzero_map]

/-- Witness for C4: channel votes `[1,1,0]` (2/3 > 1/2, output 1) and
`[1,0,0]` (output 0) with N=3, plus the exact-half example `[1,0]` with N=2
(output 0, tie resolves to off). -/
theorem vote_ensemble_multichannel_witness :
    (([Tensor.mk [1, 2] [1, 1], Tensor.mk [1, 2] [1, 0], Tensor.mk [1, 2] [0, 0]] :
        List Tensor) ≠ []) ∧
    sameShape [Tensor.mk [1, 2] [1, 1], Tensor.mk [1, 2] [1, 0], Tensor.mk [1, 2] [0, 0]]
      = true ∧
    (1 < (([Tensor.mk [1, 2] [1, 1], Tensor.mk [1, 2] [1, 0], Tensor.mk [1, 2] [0, 0]] :
        List Tensor).headD default).shape.getD 1 1) ∧
    (∃ t, vote_ensemble
        [Tensor.mk [1, 2] [1, 1], Tensor.mk [1, 2] [1, 0], Tensor.mk [1, 2] [0, 0]] = .ok t ∧
      t.shape = (([Tensor.mk [1, 2] [1, 1], Tensor.mk [1, 2] [1, 0],
          Tensor.mk [1, 2] [0, 0]] : List Tensor).headD default).shape ∧
      t.data.length = t.shape.prod ∧
      ∀ j < t.shape.prod,
        t.data.getD j 0
          = if ([Tensor.mk [1, 2] [1, 1], Tensor.mk [1, 2] [1, 0], Tensor.mk [1, 2] [0, 0]] :
                List Tensor).length
              < 2 * (([Tensor.mk [1, 2] [1, 1], Tensor.mk [1, 2] [1, 0],
                  Tensor.mk [1, 2] [0, 0]] : List Tensor).filter
                    (fun q => decide (q.data.getD j 0 ≠ 0))).length
            then 1 else 0) ∧
    vote_ensemble [Tensor.mk [1, 2] [1, 1], Tensor.mk [1, 2] [1, 0], Tensor.mk [1, 2] [0, 0]]
      = .ok (Tensor.mk [1, 2] [1, 0]) ∧
    vote_ensemble [Tensor.mk [1, 2] [1, 0], Tensor.mk [1, 2] [0, 0]]
      = .ok (Tensor.mk [1, 2] [0, 0]) :=
  ⟨by decide, by decide, by decide,
    vote_ensemble_multichannel _ (by decide) (by decide) (by decide),
    by decide, by decide⟩

/-! ### C3: single-channel vote -/

theorem voteBeats_irrefl (vs : List ℚ) (a : ℚ) : voteBeats vs a a = false := by
  simp [voteBeats]

theorem voteBeats_trans (vs : List ℚ) (a b c : ℚ)
    (hab : voteBeats vs a b = true) (hbc : voteBeats vs b c = true) :
    voteBeats vs a c = true := by
  simp only [voteBeats, Bool.or_eq_true, Bool.and_eq_true, decide_eq_true_eq] at hab hbc ⊢
  rcases hab with h1 | ⟨h1, h2⟩ <;> rcases hbc with h3 | ⟨h3, h4⟩
  · exact Or.inl (lt_trans h3 h1)
  · exact Or.inl (h3 ▸ h1)
  · exact Or.inl (h1 ▸ h3)
  · exact Or.inr ⟨h1.trans h3, lt_trans h2 h4⟩

theorem voteBeats_total (vs : List ℚ) (a b : ℚ)
    (h1 : voteBeats vs a b = false) (h2 : voteBeats vs b a = false) : a = b := by
  simp only [voteBeats, Bool.or_eq_false_iff, Bool.and_eq_false_iff,
    decide_eq_false_iff_not, not_lt, decide_eq_true_eq] at h1 h2
  obtain ⟨h1a, h1b⟩ := h1
  obtain ⟨h2a, h2b⟩ := h2
  have hcc : countVal vs a = countVal vs b := Nat.le_antisymm h1a h2a
  rcases h1b with h | h
  · exact absurd hcc h
  · rcases h2b with h2c | h2c
    · exact absurd hcc.symm h2c
    · exact le_antisymm h2c h

theorem foldl_voteBeats (vs : List ℚ) (l : List ℚ) (b0 : ℚ) :
    l.foldl (fun best v => if voteBeats vs v best then v else best) b0 ∈ b0 :: l ∧
    ∀ u ∈ b0 :: l,
      voteBeats vs u (l.foldl (fun best v => if voteBeats vs v best then v else best) b0)
        = false := by
  induction l generalizing b0 with
  | nil =>
      refine ⟨List.mem_cons_self _ _, fun u hu => ?_⟩
      rcases List.mem_cons.mp hu with h | h
      · rw [h]; exact voteBeats_irrefl vs b0
      · cases h
  | cons v t ih =>
      rw [List.foldl_cons]
      by_cases hb : voteBeats vs v b0 = true
      · rw [if_pos hb]
        obtain ⟨ihmem, ihbest⟩ := ih v
        refine ⟨List.mem_cons_of_mem _ ihmem, fun u hu => ?_⟩
        rcases List.mem_cons.mp hu with h | h
        · subst h
          cases hcc : voteBeats vs u
              (t.foldl (fun best v => if voteBeats vs v best then v else best) v) with
          | false => rfl
          | true =>
              have hvr := ihbest v (List.mem_cons_self _ _)
              have := voteBeats_trans vs v u _ hb hcc
              rw [hvr] at this
              cases this
        · exact ihbest u h
      · rw [if_neg hb]
        have hvb0 : voteBeats vs v b0 = false := Bool.eq_false_iff.mpr hb
        obtain ⟨ihmem, ihbest⟩ := ih b0
        refine ⟨?_, fun u hu => ?_⟩
        · rcases List.mem_cons.mp ihmem with h | h
          · rw [h]
            exact List.mem_cons_self _ _
          · exact List.mem_cons_of_mem _ (List.mem_cons_of_mem _ h)
        · rcases List.mem_cons.mp hu with h | h
          · subst h
            exact ihbest u (List.mem_cons_self _ _)
          · rcases List.mem_cons.mp h with h2 | h2
            · subst h2
              have hb0r : voteBeats vs b0
                  (t.foldl (fun best v => if voteBeats vs v best then v else best) b0)
                    = false := ihbest b0 (List.mem_cons_self _ _)
              cases hvr : voteBeats vs u
                  (t.foldl (fun best v => if voteBeats vs v best then v else best) b0) with
              | false => rfl
              | true =>
                  cases hbv : voteBeats vs b0 u with
                  | true =>
                      have := voteBeats_trans vs b0 u _ hbv hvr
                      rw [hb0r] at this
                      cases this
                  | false =>
                      have huv : u = b0 := voteBeats_total vs u b0 hvb0 hbv
                      rw [huv, hb0r] at hvr
                      cases hvr
            · exact ihbest u (List.mem_cons_of_mem _ h2)

theorem voteMode_spec (vs : List ℚ) (hvs : vs ≠ []) :
    voteMode vs ∈ vs ∧ ∀ u ∈ vs, voteBeats vs u (voteMode vs) = false := by
  match vs, hvs with
  | v0 :: rest, _ =>
    have he : voteMode (v0 :: rest)
        = (v0 :: rest).foldl
            (fun best v => if voteBeats (v0 :: rest) v best then v else best) v0 := rfl
    obtain ⟨hmem, hbest⟩ := foldl_voteBeats (v0 :: rest) (v0 :: rest) v0
    rw [he]
    refine ⟨?_, fun u hu => hbest u (List.mem_cons_of_mem _ hu)⟩
    rcases List.mem_cons.mp hmem with h | h
    · rw [h]
      exact List.mem_cons_self _ _
    · exact h

theorem voteBeats_eq_false_iff (vs : List ℚ) (u m : ℚ) :
    voteBeats vs u m = false
      ↔ countVal vs u ≤ countVal vs m ∧ (countVal vs u = countVal vs m → m ≤ u) := by
  simp only [voteBeats, Bool.or_eq_false_iff, Bool.and_eq_false_iff,
    decide_eq_false_iff_not, not_lt, decide_eq_true_eq]
  constructor
  · rintro ⟨h1, h2⟩
    refine ⟨h1, fun hcc => ?_⟩
    rcases h2 with h | h
    · exact absurd hcc h
    · exact h
  · rintro ⟨h1, h2⟩
    refine ⟨h1, ?_⟩
    by_cases hcc : countVal vs u = countVal vs m
    · exact Or.inr (h2 hcc)
    · exact Or.inl hcc

/-- C3: for a single-channel collection, at each output position
`vote_ensemble` emits a value that occurs among the members' values there, has
the maximal occurrence count, and is the smallest value among those tied for
that count. -/
theorem vote_ensemble_single_channel (preds : List Tensor)
    (hne : preds ≠ []) (hsh : sameShape preds = true)
    (hc : (preds.headD default).shape.getD 1 1 ≤ 1) :
    ∃ t, vote_ensemble preds = .ok t ∧
      t.shape = (preds.headD default).shape ∧
      t.data.length = t.shape.prod ∧
      ∀ j < t.shape.prod,
        t.data.getD j 0 ∈ preds.map (fun q => q.data.getD j 0) ∧
        ∀ u ∈ preds.map (fun q => q.data.getD j 0),
          countVal (preds.map (fun q => q.data.getD j 0)) u
              ≤ countVal (preds.map (fun q => q.data.getD j 0)) (t.data.getD j 0) ∧
            (countVal (preds.map (fun q => q.data.getD j 0)) u
                = countVal (preds.map (fun q => q.data.getD j 0)) (t.data.getD j 0) →
              t.data.getD j 0 ≤ u) := by
  match preds, hne with
  | p :: rest, _ =>
    simp only [List.headD_cons] at hc
    refine ⟨⟨p.shape, (List.range p.shape.prod).map
        (fun j => voteMode ((p :: rest).map (fun t => t.data.getD j 0)))⟩, ?_, rfl, ?_, ?_⟩
    · simp only [vote_ensemble]
      rw [if_pos hsh, if_pos hc]
    · simp
    · intro j hj
      rw [getD_map_range _ _ _ hj]
      have hne2 : (p :: rest).map (fun q => q.data.getD j 0) ≠ [] := by simp
      obtain ⟨hmem, hbest⟩ := voteMode_spec _ hne2
      exact ⟨hmem, fun u hu => (voteBeats_eq_false_iff _ _ _).mp (hbest u hu)⟩

/-- Witness for C3: single-channel inputs `[0]` and `[1]` — a two-way tie —
and the tie resolves to the smallest value `0`. -/
theorem vote_ensemble_single_channel_witness :
    (([Tensor.mk [1, 1] [0], Tensor.mk [1, 1] [1]] : List Tensor) ≠ []) ∧
    sameShape [Tensor.mk [1, 1] [0], Tensor.mk [1, 1] [1]] = true ∧
    (([Tensor.mk [1, 1] [0], Tensor.mk [1, 1] [1]] :
        List Tensor).headD default).shape.getD 1 1 ≤ 1 ∧
    (∃ t, vote_ensemble [Tensor.mk [1, 1] [0], Tensor.mk [1, 1] [1]] = .ok t ∧
      t.shape = (([Tensor.mk [1, 1] [0], Tensor.mk [1, 1] [1]] :
          List Tensor).headD default).shape ∧
      t.data.length = t.shape.prod ∧
      ∀ j < t.shape.prod,
        t.data.getD j 0 ∈ ([Tensor.mk [1, 1] [0], Tensor.mk [1, 1] [1]] :
            List Tensor).map (fun q => q.data.getD j 0) ∧
        ∀ u ∈ ([Tensor.mk [1, 1] [0], Tensor.mk [1, 1] [1]] :
            List Tensor).map (fun q => q.data.getD j 0),
          countVal (([Tensor.mk [1, 1] [0], Tensor.mk [1, 1] [1]] :
              List Tensor).map (fun q => q.data.getD j 0)) u
              ≤ countVal (([Tensor.mk [1, 1] [0], Tensor.mk [1, 1] [1]] :
                  List Tensor).map (fun q => q.data.getD j 0)) (t.data.getD j 0) ∧
            (countVal (([Tensor.mk [1, 1] [0], Tensor.mk [1, 1] [1]] :
                List Tensor).map (fun q => q.data.getD j 0)) u
                = countVal (([Tensor.mk [1, 1] [0], Tensor.mk [1, 1] [1]] :
                    List Tensor).map (fun q => q.data.getD j 0)) (t.data.getD j 0) →
              t.data.getD j 0 ≤ u)) ∧
    vote_ensemble [Tensor.mk [1, 1] [0], Tensor.mk [1, 1] [1]]
      = .ok (Tensor.mk [1, 1] [0]) :=
  ⟨by decide, by decide, by decide,
    vote_ensemble_single_channel _ (by decide) (by decide) (by decide),
    by decide⟩

/-! ### C8: invariance under matched permutation -/

theorem all_map_general {α β : Type} (l : List α) (f : α → β) (p : β → Bool) :
    (l.map f).all p = l.all (fun a => p (f a)) := by
  induction l with
  | nil => rfl
  | cons a t ih => simp [List.all_cons, ih]

theorem map_getD_range (w : List ℚ) :
    (List.range w.length).map (fun i => w.getD i 0) = w := by
  induction w with
  | nil => rfl
  | cons a t ih =>
      rw [List.length_cons, List.range_succ_eq_map, List.map_cons, List.map_map]
      have hc : ((fun i => (a :: t).getD i 0) ∘ Nat.succ) = fun i => t.getD i 0 :=
        funext (fun i => rfl)
      rw [List.getD_cons_zero, hc, ih]

theorem sameShape_eq_true_iff (l : List Tensor) :
    sameShape l = true ↔ ∀ a ∈ l, ∀ b ∈ l, a.shape = b.shape := by
  cases l with
  | nil => simp [sameShape]
  | cons p rest =>
      rw [sameShape_iff]
      constructor
      · intro h a ha b hb
        exact (h a ha).trans (h b hb).symm
      · intro h q hq
        exact h q hq p (List.mem_cons_self _ _)

theorem sameShape_perm (l1 l2 : List Tensor) (h : l1.Perm l2) :
    sameShape l1 = sameShape l2 := by
  have hiff : sameShape l1 = true ↔ sameShape l2 = true := by
    rw [sameShape_eq_true_iff, sameShape_eq_true_iff]
    constructor
    · intro hp a ha b hb
      exact hp a (h.mem_iff.mpr ha) b (h.mem_iff.mpr hb)
    · intro hp a ha b hb
      exact hp a (h.mem_iff.mp ha) b (h.mem_iff.mp hb)
  cases hx : sameShape l1 <;> cases hy : sameShape l2 <;> simp_all

theorem perm_all (l1 l2 : List ℚ) (h : l1.Perm l2) (p : ℚ → Bool) :
    l1.all p = l2.all p := by
  have hiff : l1.all p = true ↔ l2.all p = true := by
    rw [List.all_eq_true, List.all_eq_true]
    constructor <;> intro hp a ha
    · exact hp a (h.mem_iff.mpr ha)
    · exact hp a (h.mem_iff.mp ha)
  cases hx : l1.all p <;> cases hy : l2.all p <;> simp_all

theorem all_range_getD (w : List ℚ) (p : ℚ → Bool) :
    (List.range w.length).all (fun i => p (w.getD i 0)) = w.all p := by
  have h : (List.range w.length).all (fun i => p (w.getD i 0))
      = ((List.range w.length).map (fun i => w.getD i 0)).all p := by
    rw [all_map_general]
  rw [h, map_getD_range]

theorem any_range_const (M : Nat) (b : Bool) :
    (List.range M).any (fun _ => b) = (decide (0 < M) && b) := by
  cases b with
  | false => simp
  | true =>
      cases M with
      | zero => rfl
      | succ m =>
          rw [List.range_succ_eq_map, List.any_cons]
          simp

theorem hasDegenerate_rank1 (w : List ℚ) (n : Nat) (S : List Nat) (M : Nat) :
    hasDegenerate ⟨[n], w⟩ S w.length M
      = (decide (0 < M) && w.all (fun x => decide (x = 0))) := by
  unfold hasDegenerate
  have hw : ∀ j : Nat,
      (List.range w.length).all (fun i => decide (weightAt ⟨[n], w⟩ S i j = 0))
        = w.all (fun x => decide (x = 0)) := by
    intro j
    have he : (fun i => decide (weightAt ⟨[n], w⟩ S i j = 0))
        = fun i => decide (w.getD i 0 = 0) := rfl
    rw [he]
    exact all_range_getD w (fun x => decide (x = 0))
  simp only [hw]
  rw [any_range_const]

theorem zipWith_mul_map (w : List ℚ) (l : List Tensor) (g : Tensor → ℚ) :
    List.zipWith (fun a b => a * b) w (l.map g)
      = (l.zip w).map (fun q => q.2 * g q.1) := by
  induction w generalizing l with
  | nil => cases l <;> rfl
  | cons a wt ih =>
      cases l with
      | nil => rfl
      | cons x lt =>
          simp only [List.map_cons, List.zipWith_cons_cons, List.zip_cons_cons]
          rw [ih]

theorem elemWMean_rank1_perm (l1 l2 : List Tensor) (w1 w2 : List ℚ)
    (hl1 : w1.length = l1.length) (hl2 : w2.length = l2.length)
    (hperm : (l1.zip w1).Perm (l2.zip w2)) (S1 S2 : List Nat) (j : Nat) :
    elemWMean l1 ⟨[l1.length], w1⟩ S1 j = elemWMean l2 ⟨[l2.length], w2⟩ S2 j := by
  unfold elemWMean
  have hwa1 : (List.range l1.length).map (fun i => weightAt ⟨[l1.length], w1⟩ S1 i j)
      = w1 := by
    have he : (fun i => weightAt ⟨[l1.length], w1⟩ S1 i j)
        = fun i => w1.getD i 0 := rfl
    rw [he, ← hl1, map_getD_range]
  have hwa2 : (List.range l2.length).map (fun i => weightAt ⟨[l2.length], w2⟩ S2 i j)
      = w2 := by
    have he : (fun i => weightAt ⟨[l2.length], w2⟩ S2 i j)
        = fun i => w2.getD i 0 := rfl
    rw [he, ← hl2, map_getD_range]
  rw [hwa1, hwa2, zipWith_mul_map, zipWith_mul_map]
  have hw : w1.Perm w2 := by
    have h := hperm.map Prod.snd
    rwa [List.map_snd_zip _ _ (le_of_eq hl1), List.map_snd_zip _ _ (le_of_eq hl2)] at h
  have hnum : ((l1.zip w1).map (fun q => q.2 * q.1.data.getD j 0)).sum
      = ((l2.zip w2).map (fun q => q.2 * q.1.data.getD j 0)).sum :=
    (hperm.map (fun q => q.2 * q.1.data.getD j 0)).sum_eq
  rw [hnum, hw.sum_eq]

/-- C8: permuting the input collection and a rank-1 weight vector together
(stated as: the two zipped collection-weight lists are permutations of each
other) leaves the result of `mean_ensemble` unchanged. -/
theorem mean_ensemble_perm (preds1 preds2 : List Tensor) (w1 w2 : List ℚ)
    (hl1 : w1.length = preds1.length) (hl2 : w2.length = preds2.length)
    (hperm : (preds1.zip w1).Perm (preds2.zip w2)) :
    mean_ensemble preds1 (some ⟨[preds1.length], w1⟩)
      = mean_ensemble preds2 (some ⟨[preds2.length], w2⟩) := by
  have hp : preds1.Perm preds2 := by
    have h := hperm.map Prod.fst
    rwa [List.map_fst_zip _ _ (le_of_eq hl1.symm),
      List.map_fst_zip _ _ (le_of_eq hl2.symm)] at h
  have hw : w1.Perm w2 := by
    have h := hperm.map Prod.snd
    rwa [List.map_snd_zip _ _ (le_of_eq hl1), List.map_snd_zip _ _ (le_of_eq hl2)] at h
  cases preds1 with
  | nil =>
      cases preds2 with
      | nil => rfl
      | cons p2 r2 => exact absurd hp.length_eq (by simp)
  | cons p1 r1 =>
      cases preds2 with
      | nil => exact absurd hp.length_eq (by simp)
      | cons p2 r2 =>
          by_cases hss : sameShape (p1 :: r1) = true
          · have hss2 : sameShape (p2 :: r2) = true := by
              rw [← sameShape_perm _ _ hp]
              exact hss
            have hS : p2.shape = p1.shape := by
              rw [sameShape_eq_true_iff] at hss
              exact hss p2 (hp.mem_iff.mpr (List.mem_cons_self _ _)) p1
                (List.mem_cons_self _ _)
            have hv1 : validWeightShape [(p1 :: r1).length] (p1 :: r1).length p1.shape
                = true := by simp [validWeightShape]
            have hv2 : validWeightShape [(p2 :: r2).length] (p2 :: r2).length p2.shape
                = true := by simp [validWeightShape]
            have hd : hasDegenerate ⟨[(p1 :: r1).length], w1⟩ p1.shape (p1 :: r1).length
                  p1.shape.prod
                = hasDegenerate ⟨[(p2 :: r2).length], w2⟩ p2.shape (p2 :: r2).length
                  p2.shape.prod := by
              rw [hS, ← hl1, ← hl2, hasDegenerate_rank1, hasDegenerate_rank1,
                perm_all _ _ hw]
            simp only [mean_ensemble]
            rw [if_pos hss, if_pos hss2, if_pos hv1, if_pos hv2, hd]
            cases hdeg : hasDegenerate ⟨[(p2 :: r2).length], w2⟩ p2.shape
                (p2 :: r2).length p2.shape.prod with
            | true => simp
            | false =>
                rw [if_neg Bool.false_ne_true, if_neg Bool.false_ne_true]
                have hdata : (fun j => elemWMean (p1 :: r1) ⟨[(p1 :: r1).length], w1⟩
                      p1.shape j)
                    = fun j => elemWMean (p2 :: r2) ⟨[(p2 :: r2).length], w2⟩ p1.shape j :=
                  funext (fun j => elemWMean_rank1_perm (p1 :: r1) (p2 :: r2) w1 w2
                    hl1 hl2 hperm p1.shape p1.shape j)
                rw [hS, hdata]
          · have hss2 : sameShape (p2 :: r2) ≠ true := by
              rw [← sameShape_perm _ _ hp]
              exact hss
            simp only [mean_ensemble]
            rw [if_neg hss, if_neg hss2]

/-- Witness for C8: swapping the two members together with their weights. -/
theorem mean_ensemble_perm_witness :
    ([(1 : ℚ), 2] : List ℚ).length
        = ([Tensor.mk [1] [3], Tensor.mk [1] [5]] : List Tensor).length ∧
    ([(2 : ℚ), 1] : List ℚ).length
        = ([Tensor.mk [1] [5], Tensor.mk [1] [3]] : List Tensor).length ∧
    (([Tensor.mk [1] [3], Tensor.mk [1] [5]].zip [(1 : ℚ), 2]).Perm
      ([Tensor.mk [1] [5], Tensor.mk [1] [3]].zip [(2 : ℚ), 1])) ∧
    mean_ensemble [Tensor.mk [1] [3], Tensor.mk [1] [5]]
        (some ⟨[([Tensor.mk [1] [3], Tensor.mk [1] [5]] : List Tensor).length],
          [(1 : ℚ), 2]⟩)
      = mean_ensemble [Tensor.mk [1] [5], Tensor.mk [1] [3]]
        (some ⟨[([Tensor.mk [1] [5], Tensor.mk [1] [3]] : List Tensor).length],
          [(2 : ℚ), 1]⟩) :=
  ⟨by decide, by decide, by decide,
    mean_ensemble_perm [Tensor.mk [1] [3], Tensor.mk [1] [5]]
      [Tensor.mk [1] [5], Tensor.mk [1] [3]] [(1 : ℚ), 2] [(2 : ℚ), 1]
      (by decide) (by decide) (by decide)⟩

/-! ### C9: the notebook's 5-fold split -/

/-- C9: every one of the five folds of the notebook's split is correct: the
validation fold is the 10 pairs at sorted indices `10*i .. 10*(i+1)-1`, the
training data the other 40 pairs among the first 50, train and validation are
disjoint and together cover the first 50 pairs, and the test pairs (indices
`50..59`) are disjoint from every fold's data. -/
theorem fold_split_correct :
    foldSplitOK 0 ∧ foldSplitOK 1 ∧ foldSplitOK 2 ∧ foldSplitOK 3 ∧ foldSplitOK 4 := by
  refine ⟨?_, ?_, ?_, ?_, ?_⟩ <;>
    · unfold foldSplitOK
      refine ⟨by decide, by decide, by decide, by decide, by decide⟩

/-! ### C10: pipeline ordering and discreteness -/

theorem AsDiscreted_isDiscrete (keys : List String) (d : Dict) (k : String)
    (hk : k ∈ keys) : isDiscrete (AsDiscreted keys d k) := by
  unfold AsDiscreted isDiscrete
  rw [if_pos hk]
  intro v hv
  obtain ⟨x, hx, he⟩ := List.mem_map.mp hv
  subst he
  by_cases h : mkRat 1 2 ≤ x <;> simp [h]

/-- C10: in the notebook's vote pipeline, every tensor handed to
`VoteEnsembled` (the dictionary state after `Activationsd` then `AsDiscreted`
on all five prediction keys) is discrete, whatever the activation and the
input dictionary; and the pipelines factor as in the notebook: the vote
reducer runs after discretization, while in the mean pipeline `MeanEnsembled`
consumes the raw input dictionary, with activation and discretization applied
only afterwards to the aggregated key. -/
theorem pipeline_discreteness (act : ℚ → ℚ) (d : Dict) (k : String)
    (hk : k ∈ pred_keys) :
    isDiscrete (voteStageInput act d k) ∧
    vote_post_transforms act d = VoteEnsembled pred_keys "pred" (voteStageInput act d) ∧
    mean_post_transforms act d
      = AsDiscreted ["pred"]
          (Activationsd act ["pred"] (MeanEnsembled pred_keys "pred" (some exW) d)) :=
  ⟨AsDiscreted_isDiscrete pred_keys (Activationsd act pred_keys d) k hk, rfl, rfl⟩

/-- Witness for C10 at a concrete continuous input dictionary. -/
theorem pipeline_discreteness_witness :
    ("pred0" ∈ pred_keys) ∧
    (isDiscrete (voteStageInput id (fun _ => Tensor.mk [1] [mkRat 3 4]) "pred0") ∧
      vote_post_transforms id (fun _ => Tensor.mk [1] [mkRat 3 4])
        = VoteEnsembled pred_keys "pred"
            (voteStageInput id (fun _ => Tensor.mk [1] [mkRat 3 4])) ∧
      mean_post_transforms id (fun _ => Tensor.mk [1] [mkRat 3 4])
        = AsDiscreted ["pred"]
            (Activationsd id ["pred"]
              (MeanEnsembled pred_keys "pred" (some exW)
                (fun _ => Tensor.mk [1] [mkRat 3 4])))) :=
  ⟨by decide,
    pipeline_discreteness id (fun _ => Tensor.mk [1] [mkRat 3 4]) "pred0" (by decide)⟩
